import Mathlib

/-
Shallow embedding of the `FillQueue` block-based queue of
`src/fill_queue.rs` together with the flag (`src/flag/mpmc.rs`),
notifier (`src/notify.rs`) and blocking-token (`src/locks.rs`) layers
built on top of it.  All operations are modelled with their
single-threaded semantics: an atomic load/swap/compare-exchange sees the
current state and succeeds, and a loop that waits for another thread to
change the head pointer never terminates (modelled as the `hung`
outcome).  Panics (`todo!()`, `unreachable!()`, out-of-bounds slice
indexing) are modelled as the `panicked` outcome.
-/

set_option autoImplicit false

namespace FillQ

variable {T : Type}

/-- A detached chain of blocks as laid out by `fill_queue.rs`.
`cons init idx nodes prev` is one `Block<T>`: the block's `init`
header flag, its head position `idx`, its node array `nodes`
(a node is `none` while its own `init` flag is `FALSE` and its
`MaybeUninit` slot unwritten, `some v` once the value `v` has been
written and the node published), and the block's `prev` pointer,
which is the rest of the chain (`nil` models the null pointer). -/
inductive Chain (T : Type) where
  | nil : Chain T
  | cons (init : Bool) (idx : Nat) (nodes : List (Option T)) (prev : Chain T) : Chain T
deriving DecidableEq

/-- The queue's `block: AtomicPtr<u8>` field.  It holds either the null
pointer (`EMPTY = 0`), the sentinel `LOCKED = 1`, or a real block
pointer.  The transient `ALLOCATING = 2` sentinel only exists in the
middle of `allocate_new_block`, which always runs to completion inside
one single-threaded call, so no reachable state between operations
carries it. -/
inductive Head (T : Type) where
  | empty : Head T
  | locked : Head T
  | blk (init : Bool) (idx : Nat) (nodes : List (Option T)) (prev : Chain T) : Head T
deriving DecidableEq

/-- `FillQueue<T>`: the head pointer `block` and the configured
`block_size`.  The extra `lost` field is a ghost field of the model: it
records the values sitting in heap blocks that are no longer reachable
from the queue object (a block pointer that was overwritten with
`EMPTY`, or a freshly allocated block whose pointer was never stored
into `self.block`).  No operation of the source can ever reach those
values again; the ghost field only makes the leak visible to the
theorems. -/
structure FillQueue (T : Type) where
  block : Head T
  blockSize : Nat
  lost : List T
deriving DecidableEq

/-- Values reachable from a detached chain, in memory order
(node array order of each block, following `prev` links). -/
def chainVals : Chain T → List T
  | .nil => []
  | .cons _ _ nodes prev => nodes.filterMap id ++ chainVals prev

/-- Values still reachable from the queue's head pointer.  Nothing is
reachable through `EMPTY` or through the `LOCKED` sentinel. -/
def reachableVals (q : FillQueue T) : List T :=
  match q.block with
  | .blk _ _ nodes prev => nodes.filterMap id ++ chainVals prev
  | _ => []

/-- `FillQueue::new_with_block_size`: panics (`none`) when the size
reaches `ALLOCATION_MASK as usize = 2^63`; the `NonZeroUsize` argument
type rules out zero. -/
def newWithBlockSize (T : Type) (bs : Nat) : Option (FillQueue T) :=
  if 1 ≤ bs ∧ bs < 2 ^ 63 then some ⟨Head.empty, bs, []⟩ else none

/-- The node array of a freshly allocated block after the pushing call
wrote its value: `block_size` nodes, all with `init = FALSE`
(`none`), except node 0 which receives the pushed value (the
allocating caller takes index 0 and the block's `idx` starts at 1). -/
def freshNodes (bs : Nat) (v : T) : List (Option T) :=
  (List.replicate bs (none : Option T)).set 0 (some v)

/-- Outcome of one push call. -/
inductive PushOut (T : Type) where
  | ok (q : FillQueue T)
  | err (q : FillQueue T)
  | panicked
  | hung
deriving DecidableEq

/-- Single-threaded semantics of `FillQueue::try_push`
(`fill_queue.rs` lines 233-297 with `allocate_new_block`,
lines 397-446, and `Block::next_node`, lines 57-62).

Head `EMPTY`: `allocate_new_block(EMPTY)` wins its compare-exchange,
stores the `LOCKED` sentinel into `self.block`, initializes the new
block (`idx = 1`, `prev = null`, all nodes uninitialized) and hands
node 0 back to `try_push`, which writes `v` into it.  No statement of
`allocate_new_block` or `try_push` ever stores the new block pointer
into `self.block`, so the head stays `LOCKED` and the freshly
allocated block (holding `v`) becomes unreachable: it goes to the
ghost `lost` field.  On allocation failure the error path stores
`EMPTY` back and returns the error.

Head `LOCKED`: the code spins reloading `self.block` until it differs
from `LOCKED`; single-threaded nothing ever changes it, so the call
never returns (`hung`).

Head a block pointer: `Block::next_node` does `idx.fetch_add(1)` and
then checks `if idx > self.len() { return None }` — so for
`idx < len` it hands out node `idx`, for `idx = len` it executes
`self.nodes[idx]`, an out-of-bounds slice index, which panics, and for
`idx > len` it returns `None`, whereupon `try_push` reloads the (still
full) block and loops forever. -/
def tryPush (allocOk : Bool) (q : FillQueue T) (v : T) : PushOut T :=
  match q.block with
  | .empty =>
      if allocOk then
        .ok { q with block := Head.locked, lost := q.lost ++ [v] }
      else
        .err { q with block := Head.empty }
  | .locked => .hung
  | .blk binit idx nodes prev =>
      if idx > nodes.length then .hung
      else if idx = nodes.length then .panicked
      else .ok { q with block := Head.blk binit (idx + 1) (nodes.set idx (some v)) prev }

/-- Single-threaded semantics of `FillQueue::try_push_mut`
(`fill_queue.rs` lines 318-395, with `Block::next_node_mut`,
lines 64-71).

Head `EMPTY`: a new block is allocated inline, `idx` starts at 1, the
value goes into node 0, and the block pointer is stored into
`self.block` (`core::mem::replace(self_block, ptr.as_ptr())`).  The
`prev` written into the new block is the replaced head value, which on
this path is always `EMPTY`, i.e. null.  On allocation failure the
head is reset to `EMPTY` and the error returned.

Head `LOCKED`: the code executes `unreachable!()`, a panic (this state
is reachable single-threadedly: one atomic `try_push` leaves the head
`LOCKED`).

Head a block pointer: `next_node_mut` increments `idx` and has the
same off-by-one comparison as `next_node`: node `idx` for
`idx < len`, an out-of-bounds panic for `idx = len`, `None` for
`idx > len`.  On `None` the code overwrites the head with `EMPTY` —
losing the only pointer to the full block, whose values go to the
ghost `lost` field — and reruns the loop, which then allocates a fresh
block whose `prev` is null. -/
def tryPushMut (allocOk : Bool) (q : FillQueue T) (v : T) : PushOut T :=
  match q.block with
  | .empty =>
      if allocOk then
        .ok { q with block := Head.blk true 1 (freshNodes q.blockSize v) Chain.nil }
      else
        .err { q with block := Head.empty }
  | .locked => .panicked
  | .blk binit idx nodes prev =>
      if idx > nodes.length then
        if allocOk then
          .ok { q with block := Head.blk true 1 (freshNodes q.blockSize v) Chain.nil,
                       lost := q.lost ++ (nodes.filterMap id ++ chainVals prev) }
        else
          .err { q with block := Head.empty,
                        lost := q.lost ++ (nodes.filterMap id ++ chainVals prev) }
      else if idx = nodes.length then .panicked
      else .ok { q with block := Head.blk binit (idx + 1) (nodes.set idx (some v)) prev }

/-- Runs a sequence of `try_push` calls, stopping at the first call
that does not return `Ok`. -/
def runPush (q : FillQueue T) : List T → PushOut T
  | [] => .ok q
  | v :: vs =>
      match tryPush true q v with
      | .ok q' => runPush q' vs
      | r => r

/-- Runs a sequence of `try_push_mut` calls, stopping at the first
call that does not return `Ok`. -/
def runPushMut (q : FillQueue T) : List T → PushOut T
  | [] => .ok q
  | v :: vs =>
      match tryPushMut true q v with
      | .ok q' => runPushMut q' vs
      | r => r

/-- `PushOut.isOk` is true exactly when the push returned `Ok`. -/
def PushOut.isOk : PushOut T → Bool
  | .ok _ => true
  | _ => false

/-- `ChopIter<T>` (`fill_queue.rs` lines 785-792): the captured chain
pointer `ptr` (null modelled as `Chain.nil`), the copied `block_size`,
and the `range: Range<usize>` of indices still to visit in the current
block, stored as `rangeStart..rangeEnd`. -/
structure ChopIter (T : Type) where
  ptr : Chain T
  blockSize : Nat
  rangeStart : Nat
  rangeEnd : Nat
deriving DecidableEq

/-- Outcome of one `ChopIter::next` call: a yielded value together
with the advanced iterator, the end of iteration (`done`), an endless
spin on an `init` flag that no other thread will ever set (`hung`),
or an out-of-range `get_unchecked` (`oob`, undefined behaviour in the
source). -/
inductive IterStep (T : Type) where
  | yield (v : T) (it : ChopIter T)
  | done
  | hung
  | oob
deriving DecidableEq

/-- The fresh range installed when `ChopIter::next` moves to the
previous block: `0..0` for the null pointer, `0..block_size`
otherwise (`fill_queue.rs` line 824). -/
def nextRangeEnd (bs : Nat) : Chain T → Nat
  | .nil => 0
  | .cons _ _ _ _ => bs

/-- Single-threaded semantics of the `while let` loop of
`ChopIter::next` (`fill_queue.rs` lines 799-834), parameterized by the
iterator fields: wait on the block's `init` flag (an unset flag spins
forever single-threadedly), then either take `range.next_back()` and
read node `rangeEnd - 1` (spinning forever if that node's `init` flag
is unset), or — when the range is exhausted — free the block, move to
`prev` with the fresh range and continue the loop. -/
def nextFrom (bs : Nat) : Chain T → Nat → Nat → IterStep T
  | .nil, _, _ => .done
  | .cons binit bidx nodes prev, s, e =>
      if binit = false then .hung
      else if s < e then
        match nodes[e - 1]? with
        | none => .oob
        | some none => .hung
        | some (some v) => .yield v ⟨Chain.cons binit bidx nodes prev, bs, s, e - 1⟩
      else
        nextFrom bs prev 0 (nextRangeEnd bs prev)

/-- `ChopIter::next` on the iterator's own fields. -/
def ChopIter.next (it : ChopIter T) : IterStep T :=
  nextFrom it.blockSize it.ptr it.rangeStart it.rangeEnd

/-- Helper for `ChopIter.drain`: the values produced from the current
block's node array by repeatedly taking `range.next_back()`, together
with a flag telling whether the range was exhausted (`true`, so
iteration moves on to `prev`) or iteration stopped inside this block
(`false`: an uninitialized node spins forever, an out-of-range read is
undefined; either way no further value is produced). -/
def drainRange (nodes : List (Option T)) (s : Nat) : Nat → List T × Bool
  | 0 => ([], true)
  | e + 1 =>
      if s ≤ e then
        match nodes[e]? with
        | some (some v) =>
            let r := drainRange nodes s e
            (v :: r.1, r.2)
        | _ => ([], false)
      else ([], true)

/-- The full value sequence produced by iterating `ChopIter::next`
until it stops yielding, written as structural recursion over the
chain (current block first, then the remaining chain).  This is what
`ChopIter`'s `Drop` impl (`self.for_each(core::mem::drop)`,
`fill_queue.rs` lines 838-845) runs through.  The theorems
`drain_eq_of_next_yield` and `takeDrop_spec` below relate it to
step-by-step calls of `ChopIter.next`. -/
def drainFrom (bs : Nat) : Chain T → Nat → Nat → List T
  | .nil, _, _ => []
  | .cons binit _ nodes prev, s, e =>
      if binit = false then []
      else
        let r := drainRange nodes s e
        if r.2 then r.1 ++ drainFrom bs prev 0 (nextRangeEnd bs prev)
        else r.1

/-- Values produced by running the iterator to exhaustion. -/
def ChopIter.drain (it : ChopIter T) : List T :=
  drainFrom it.blockSize it.ptr it.rangeStart it.rangeEnd

/-- `k` explicit `ChopIter::next` calls: the list of values they
yield and the iterator state they leave behind (consuming stops early
if `next` stops yielding). -/
def takeDrop : Nat → ChopIter T → List T × ChopIter T
  | 0, it => ([], it)
  | k + 1, it =>
      match it.next with
      | .yield v it' =>
          let r := takeDrop k it'
          (v :: r.1, r.2)
      | _ => ([], it)

/-- Well-formedness of a fully detached chain: every block is
initialized, has exactly `block_size` nodes, and all of its nodes are
initialized.  This is the shape of the non-head blocks an iterator
walks (their fresh range is `0..block_size`). -/
def chainWfB (bs : Nat) : Chain T → Bool
  | .nil => true
  | .cons binit _ nodes prev =>
      binit && (nodes.length == bs) && nodes.all Option.isSome && chainWfB bs prev

/-- Well-formedness of a `ChopIter` as produced by a chop: the head
block is initialized, the range starts at 0 and ends within the node
array, the node array has `block_size` entries, every node inside the
range is initialized, and the rest of the chain is well-formed. -/
def iterWfB (it : ChopIter T) : Bool :=
  match it.ptr with
  | .nil => true
  | .cons binit _ nodes prev =>
      binit && (it.rangeStart == 0) && (decide (it.rangeEnd ≤ nodes.length)) &&
        (nodes.length == it.blockSize) && ((nodes.take it.rangeEnd).all Option.isSome) &&
        chainWfB it.blockSize prev

/-- The values owned by a detached fully-populated chain, in the LIFO
order the iterator visits them (each block from its last node down to
node 0, then the previous block). -/
def chainValsLIFO (bs : Nat) : Chain T → List T
  | .nil => []
  | .cons _ _ nodes prev => ((nodes.take bs).reverse.filterMap id) ++ chainValsLIFO bs prev

/-- The values owned by an iterator: the in-range part of the current
block in LIFO order, then the rest of the chain. -/
def iterVals (it : ChopIter T) : List T :=
  match it.ptr with
  | .nil => []
  | .cons _ _ nodes prev =>
      ((nodes.take it.rangeEnd).reverse.filterMap id) ++ chainValsLIFO it.blockSize prev

/-- Outcome of a chop call: the iterator plus the queue left behind,
or a panic. -/
inductive ChopOut (T : Type) where
  | iter (it : ChopIter T) (q : FillQueue T)
  | panicked
deriving DecidableEq

/-- Single-threaded semantics of the atomic `FillQueue::chop`
(the compiling `alloc_api` version, `fill_queue.rs` lines 569-598; the
other version, lines 667-688, reads a field `self.idx` that the
`FillQueue` struct does not declare and does not compile): swap the
head with `EMPTY`; on `EMPTY` return the empty iterator
(`ptr: None`, `range: Range::default()`), on the `LOCKED` or
`ALLOCATING` sentinels execute `todo!()`, a panic, and on a block
pointer return an iterator over that block with `range = 0..idx`. -/
def chopA (q : FillQueue T) : ChopOut T :=
  match q.block with
  | .empty => .iter ⟨Chain.nil, q.blockSize, 0, 0⟩ { q with block := Head.empty }
  | .locked => .panicked
  | .blk binit idx nodes prev =>
      .iter ⟨Chain.cons binit idx nodes prev, q.blockSize, 0, idx⟩ { q with block := Head.empty }

/-- Semantics of `FillQueue::chop_mut` (`fill_queue.rs`
lines 620-643 / 710-732).  Both versions in the source read
`self.idx`, a field the `FillQueue` struct does not declare, so they
do not compile; the model follows the arm structure of the compiling
atomic `chop`: the head is replaced by null and the head block (with
limit `idx`) becomes the iterator.  A head holding the `LOCKED`
sentinel (the value `1`, not a valid block pointer) is modelled as the
panicking outcome, matching the `todo!()` arm of the compiled chop. -/
def chopMut (q : FillQueue T) : ChopOut T :=
  match q.block with
  | .empty => .iter ⟨Chain.nil, q.blockSize, 0, 0⟩ { q with block := Head.empty }
  | .locked => .panicked
  | .blk binit idx nodes prev =>
      .iter ⟨Chain.cons binit idx nodes prev, q.blockSize, 0, idx⟩ { q with block := Head.empty }

/-- Outcome of a call returning a `bool`. -/
inductive BoolOut where
  | ret (b : Bool)
  | panicked
deriving DecidableEq

/-- `FillQueue::is_empty` (`fill_queue.rs` lines 182-185): the body is
`todo!()`, so every call panics, whatever the queue state. -/
def isEmptyOut (_q : FillQueue T) : BoolOut := .panicked

/-- Heads with an index that never ran past the node array.  Every
queue reachable by panic-free pushes satisfies this: a block's `idx`
only reaches `len + 1` through the out-of-bounds panic at
`idx = len`. -/
def wfQB (q : FillQueue T) : Bool :=
  match q.block with
  | .blk _ idx nodes _ => decide (idx ≤ nodes.length)
  | _ => true

/-- The blocking token of `src/locks.rs` (`std` version): a `Lock`
wraps the `std::thread::Thread` handle of the registered thread,
identified here by a numeric id. -/
structure Lock where
  thread : Nat
deriving DecidableEq

/-- `impl Drop for Lock` (`locks.rs` lines 119-124) unparks the
wrapped thread.  The result lists the thread ids unparked by the
call. -/
def lockDropUnparks (l : Lock) : List Nat := [l.thread]

/-- `Lock::wake` (`locks.rs` lines 283-285) has an empty body but
consumes `self`, so Rust runs `Drop for Lock` right after it: waking
a lock unparks its thread. -/
def lockWakeUnparks (l : Lock) : List Nat := lockDropUnparks l

/-- `Lock::silent_drop` (`locks.rs` lines 59-63) wraps the lock in
`ManuallyDrop` and drops only the inner `Thread` handle, whose own
destructor does not unpark: no thread is unparked. -/
def lockSilentDropUnparks (_l : Lock) : List Nat := []

/-- Outcome of a teardown path (a destructor or a notify round): the
list of thread ids it unparked, or a panic. -/
inductive TeardownOut where
  | clean (unparked : List Nat)
  | panicked
deriving DecidableEq

/-- Thread ids a teardown actually unparked (a panicking teardown
unparks nobody: the registered locks sit in unreachable blocks and no
live value is unwound). -/
def TeardownOut.unparks : TeardownOut → List Nat
  | .clean l => l
  | .panicked => []

/-- `Subscribe::wait` registration step (`flag/mpmc.rs` lines 57-65):
construct a `Lock` for the current thread and push it into the shared
queue with the atomic `push` (= `try_push(..).unwrap()`); the caller
then parks itself on the companion `LockSub`. -/
def subscribeWait (q : FillQueue Lock) (threadId : Nat) : PushOut Lock :=
  tryPush true q ⟨threadId⟩

/-- `Listener::try_recv` registration step (`notify.rs`
lines 99-107): upgrade the weak handle, push a fresh `Lock` with the
atomic `push`, then park on the companion `LockSub`. -/
def listenerRegister (q : FillQueue Lock) (threadId : Nat) : PushOut Lock :=
  tryPush true q ⟨threadId⟩

/-- `impl Drop for FlagQueue` (`flag/mpmc.rs` lines 103-108):
`self.0.chop_mut().for_each(Lock::wake)` — chop the waiter queue and
wake every lock pulled out. -/
def flagQueueDrop (q : FillQueue Lock) : TeardownOut :=
  match chopMut q with
  | .panicked => .panicked
  | .iter it _ => .clean (it.drain.flatMap lockWakeUnparks)

/-- `FlagQueue::silent_drop` (`flag/mpmc.rs` lines 94-101):
`chop_mut().for_each(Lock::silent_drop)` — chop the waiter queue and
silently drop every lock pulled out, then dispose of the queue
without running its `Drop` impl. -/
def flagQueueSilentDrop (q : FillQueue Lock) : TeardownOut :=
  match chopMut q with
  | .panicked => .panicked
  | .iter it _ => .clean (it.drain.flatMap lockSilentDropUnparks)

/-- `Flag::silent_drop` (`flag/mpmc.rs` lines 45-52):
`Arc::try_unwrap` succeeds only for the last strong handle, in which
case `FlagQueue::silent_drop` runs; otherwise the call merely releases
this handle's reference and touches no lock. -/
def flagSilentDrop (strong : Nat) (q : FillQueue Lock) : TeardownOut :=
  if strong = 1 then flagQueueSilentDrop q else .clean []

/-- `impl Drop for FillQueue` (`fill_queue.rs` lines 749-782): the
destructor detaches whatever chain is still linked and drops it
through a `ChopIter`, whose `Drop` runs plain `drop` on every value —
for a `FillQueue<Lock>` each dropped lock unparks its thread
(`Drop for Lock`).  The source again reads the undeclared `self.idx`;
the model mirrors `chopMut`. -/
def queueDropUnparks (q : FillQueue Lock) : TeardownOut :=
  match chopMut q with
  | .panicked => .panicked
  | .iter it _ => .clean (it.drain.flatMap lockDropUnparks)

/-- `Notify::silent_drop` (`notify.rs` lines 70-75): for the last
strong handle, `chop_mut().for_each(Lock::silent_drop)` runs, after
which the unwrapped `Inner` (and its now-chopped `FillQueue`) is
dropped, running the queue's own destructor on whatever is still
linked.  With other handles alive only the reference is released. -/
def notifySilentDrop (strong : Nat) (q : FillQueue Lock) : TeardownOut :=
  if strong = 1 then
    match chopMut q with
    | .panicked => .panicked
    | .iter it q' =>
        match queueDropUnparks q' with
        | .panicked => .panicked
        | .clean l2 => .clean (it.drain.flatMap lockSilentDropUnparks ++ l2)
  else .clean []

/-- `Notify::notify_all` (`notify.rs` lines 55-58):
`self.inner.wakers.chop().for_each(Lock::wake)` — an atomic chop of
the waiter queue, waking every lock it yields. -/
def notifyAllOut (q : FillQueue Lock) : TeardownOut :=
  match chopA q with
  | .panicked => .panicked
  | .iter it _ => .clean (it.drain.flatMap lockWakeUnparks)

/-- Concrete well-formed iterator used to witness the early-drop
theorem: the result of chopping a queue into which 1, 2, 3 were
pushed with the default block size 8. -/
def c6Input : ChopIter Nat :=
  ⟨Chain.cons true 3 [some 1, some 2, some 3, none, none, none, none, none] Chain.nil, 8, 0, 3⟩

/-- A range that is already exhausted produces nothing and hands
iteration on to the previous block. -/
theorem drainRange_stop (nodes : List (Option T)) (s e : Nat) (h : e ≤ s) :
    drainRange nodes s e = ([], true) := by
  cases e with
  | zero => rfl
  | succ m =>
      have hm : ¬ (s ≤ m) := by omega
      simp [drainRange, hm]

/-- When one `ChopIter::next` call yields `v`, running the iterator to
exhaustion produces `v` followed by the exhaustion of the advanced
iterator: `drain` is exactly the iteration of `next`. -/
theorem drainFrom_yield (bs : Nat) (c : Chain T) :
    ∀ (s e : Nat) (v : T) (it' : ChopIter T), nextFrom bs c s e = IterStep.yield v it' →
      drainFrom bs c s e = v :: it'.drain := by
  induction c with
  | nil =>
      intro s e v it' h
      simp [nextFrom] at h
  | cons binit bidx nodes prev ih =>
      intro s e v it' h
      cases binit with
      | false => simp [nextFrom] at h
      | true =>
          by_cases hse : s < e
          · obtain ⟨m, rfl⟩ : ∃ m, e = m + 1 := ⟨e - 1, by omega⟩
            have hsm : s ≤ m := by omega
            simp only [nextFrom, Bool.true_eq_false, if_false, if_pos hse,
              Nat.add_sub_cancel] at h
            cases hn : nodes[m]? with
            | none => rw [hn] at h; cases h
            | some o =>
                cases o with
                | none => rw [hn] at h; cases h
                | some w =>
                    rw [hn] at h
                    injection h with h1 h2
                    subst h1
                    subst h2
                    show drainFrom bs (Chain.cons true bidx nodes prev) s (m + 1)
                        = w :: ChopIter.drain ⟨Chain.cons true bidx nodes prev, bs, s, m⟩
                    simp only [ChopIter.drain, drainFrom, Bool.true_eq_false, if_false,
                      drainRange, if_pos hsm, hn]
                    cases hb : (drainRange nodes s m).2 <;> simp [hb]
          · have h2 : nextFrom bs prev 0 (nextRangeEnd bs prev) = IterStep.yield v it' := by
              simpa [nextFrom, hse] using h
            calc drainFrom bs (Chain.cons true bidx nodes prev) s e
                = drainFrom bs prev 0 (nextRangeEnd bs prev) := by
                  simp [drainFrom, drainRange_stop nodes s e (Nat.le_of_not_lt hse)]
              _ = v :: it'.drain := ih 0 (nextRangeEnd bs prev) v it' h2

/-- Consuming any number of elements with explicit `next` calls and
then running the iterator to exhaustion produces exactly the same
value sequence as exhausting it directly: early consumption neither
skips nor duplicates a value. -/
theorem takeDrop_spec (k : Nat) (it : ChopIter T) :
    (takeDrop k it).1 ++ ((takeDrop k it).2).drain = it.drain := by
  induction k generalizing it with
  | zero => simp [takeDrop]
  | succ k ih =>
      cases hn : it.next with
      | yield v it' =>
          have hd : it.drain = v :: it'.drain :=
            drainFrom_yield it.blockSize it.ptr it.rangeStart it.rangeEnd v it' hn
          simp [takeDrop, hn, hd, ih it']
      | done => simp [takeDrop, hn]
      | hung => simp [takeDrop, hn]
      | oob => simp [takeDrop, hn]

/-- Over a range whose nodes are all initialized, the current block
produces its in-range values in LIFO order and iteration moves on. -/
theorem drainRange_full (nodes : List (Option T)) (e : Nat) (he : e ≤ nodes.length)
    (hall : (nodes.take e).all Option.isSome = true) :
    drainRange nodes 0 e = ((nodes.take e).reverse.filterMap id, true) := by
  induction e with
  | zero => simp [drainRange]
  | succ m ih =>
      have hm : m < nodes.length := by omega
      have hsome : nodes[m]? = some nodes[m] := List.getElem?_eq_getElem hm
      rw [List.take_succ, hsome] at hall
      simp only [Option.toList_some, List.all_append, List.all_cons, List.all_nil,
        Bool.and_true, Bool.and_eq_true] at hall
      obtain ⟨h1, h2⟩ := hall
      obtain ⟨w, hw⟩ := Option.isSome_iff_exists.mp h2
      have hms : nodes[m]? = some (some w) := by rw [hsome, hw]
      have ihm := ih (by omega) h1
      simp only [drainRange, Nat.zero_le, if_true, hms, ihm]
      rw [List.take_succ, hsome, hw]
      simp

/-- A well-formed fully-populated chain drains to its LIFO value
sequence. -/
theorem drainFrom_wfChain (bs : Nat) (c : Chain T) (h : chainWfB bs c = true) :
    drainFrom bs c 0 (nextRangeEnd bs c) = chainValsLIFO bs c := by
  induction c with
  | nil => rfl
  | cons binit bidx nodes prev ih =>
      rw [chainWfB] at h
      simp only [Bool.and_eq_true, beq_iff_eq] at h
      obtain ⟨⟨⟨hinit, hlen⟩, hall⟩, hprev⟩ := h
      subst hinit
      have htake : nodes.take bs = nodes := by rw [← hlen]; exact List.take_length nodes
      have hfull := drainRange_full nodes bs (by omega) (by rw [htake]; exact hall)
      simp only [nextRangeEnd, drainFrom, hfull, chainValsLIFO]
      rw [if_pos trivial]
      exact congrArg (fun l => List.filterMap id (List.take bs nodes).reverse ++ l) (ih hprev)

/-- A well-formed iterator (the shape every chop produces) drains to
exactly its owned values, in LIFO order. -/
theorem drain_wf (it : ChopIter T) (h : iterWfB it = true) : it.drain = iterVals it := by
  obtain ⟨c, bs, s, e⟩ := it
  cases c with
  | nil => rfl
  | cons binit bidx nodes prev =>
      rw [iterWfB] at h
      simp only [Bool.and_eq_true, beq_iff_eq, decide_eq_true_eq] at h
      obtain ⟨⟨⟨⟨⟨hinit, hs⟩, he⟩, hlen⟩, hall⟩, hprev⟩ := h
      subst hinit
      subst hs
      have hfull := drainRange_full nodes e he hall
      show drainFrom bs (Chain.cons true bidx nodes prev) 0 e = _
      simp only [drainFrom, hfull, iterVals]
      rw [if_pos trivial]
      exact congrArg (fun l => List.filterMap id (List.take e nodes).reverse ++ l)
        (drainFrom_wfChain bs prev hprev)

/-- Silently dropping each lock of a list unparks nobody. -/
theorem flatMap_silentUnparks (l : List Lock) : l.flatMap lockSilentDropUnparks = [] := by
  induction l with
  | nil => rfl
  | cons a l ih => simp [List.flatMap_cons, lockSilentDropUnparks, ih]

/-- Claim C1: in every single-threaded push/chop sequence the multiset
of values yielded by the chops equals the multiset of successfully
pushed values.  Evaluation at the failing input: one atomic `try_push`
of 42 on a fresh queue returns `Ok`, yet the value ends up in a block
whose pointer was never stored into `self.block` (the head is left at
the `LOCKED` sentinel), nothing is reachable from the queue any more,
and the following `chop` panics on its `LOCKED` arm — so no chop can
ever yield 42 and the push is lost. -/
theorem c1_single_push_is_lost :
    tryPush true (⟨Head.empty, 8, []⟩ : FillQueue Nat) 42
        = PushOut.ok ⟨Head.locked, 8, [42]⟩ ∧
    reachableVals (⟨Head.locked, 8, [42]⟩ : FillQueue Nat) = [] ∧
    chopA (⟨Head.locked, 8, [42]⟩ : FillQueue Nat) = ChopOut.panicked := by
  decide

/-- Claim C2: pushing 1, 2, 3 sequentially and chopping yields
3, 2, 1, then nothing.  Evaluation at the failing input: the first
atomic `push` leaves the head at the `LOCKED` sentinel, so the second
`push` spins on it forever and the claimed sequence can never reach
its chop; chopping after the first push panics instead of yielding
anything. -/
theorem c2_sequential_pushes_cannot_reach_the_chop :
    tryPush true (⟨Head.empty, 8, []⟩ : FillQueue Nat) 1
        = PushOut.ok ⟨Head.locked, 8, [1]⟩ ∧
    tryPush true (⟨Head.locked, 8, [1]⟩ : FillQueue Nat) 2 = PushOut.hung ∧
    chopA (⟨Head.locked, 8, [1]⟩ : FillQueue Nat) = ChopOut.panicked := by
  decide

/-- Claim C3: every push succeeds whenever allocation succeeds, in
particular past `block_size` pushes.  Evaluation at the failing
inputs: with `block_size = 2`, the third `try_push_mut` panics
(`Block::next_node_mut` checks `idx > len` instead of `idx >= len`
and indexes `nodes[len]` out of bounds); on the atomic side the second
`try_push` of any queue never even returns (it spins on the `LOCKED`
sentinel the first push left behind). -/
theorem c3_push_beyond_block_size_fails :
    runPushMut (⟨Head.empty, 2, []⟩ : FillQueue Nat) [1, 2, 3] = PushOut.panicked ∧
    runPush (⟨Head.empty, 8, []⟩ : FillQueue Nat) [1, 2] = PushOut.hung := by
  decide

/-- Claim C4: under single-threaded use `push_mut`/`chop_mut` and
`push`/`chop` produce identical observable results for the same call
sequence.  Evaluation at the failing input: two `push_mut` calls both
return `Ok`, while the same two-call sequence through the atomic
`push` never returns from the second call. -/
theorem c4_mut_and_atomic_push_diverge :
    (runPushMut (⟨Head.empty, 8, []⟩ : FillQueue Nat) [1, 2]).isOk = true ∧
    runPush (⟨Head.empty, 8, []⟩ : FillQueue Nat) [1, 2] = PushOut.hung := by
  decide

/-- Claim C5: on a fresh queue `chop()` yields nothing and
`is_empty()` returns true.  The chop half holds (the swap sees `EMPTY`
and the returned iterator drains to nothing), but `is_empty`'s body is
`todo!()`, so the call panics instead of returning true. -/
theorem c5_is_empty_panics_on_fresh_queue :
    isEmptyOut (⟨Head.empty, 8, []⟩ : FillQueue Nat) = BoolOut.panicked ∧
    chopA (⟨Head.empty, 8, []⟩ : FillQueue Nat)
        = ChopOut.iter ⟨Chain.nil, 8, 0, 0⟩ ⟨Head.empty, 8, []⟩ ∧
    ChopIter.drain (⟨Chain.nil, 8, 0, 0⟩ : ChopIter Nat) = [] := by
  decide

/-- Claim C6: consuming some prefix of a `ChopIter` with `next` and
then letting its `Drop` impl drain the rest releases every value of
the chopped chain exactly once — the consumed prefix followed by the
drained remainder is exactly the iterator's owned value sequence, for
every well-formed iterator (the shape every chop produces) and every
number of consumed elements. -/
theorem c6_early_drop_releases_each_value_once (k : Nat) (it : ChopIter Nat)
    (h : iterWfB it = true) :
    (takeDrop k it).1 ++ ((takeDrop k it).2).drain = iterVals it := by
  rw [takeDrop_spec k it]
  exact drain_wf it h

/-- Witness for claim C6 at a concrete iterator (the chop of a queue
holding 1, 2, 3) with one element consumed before the drop. -/
theorem c6_witness :
    iterWfB c6Input = true ∧
    (takeDrop 1 c6Input).1 ++ ((takeDrop 1 c6Input).2).drain = iterVals c6Input :=
  ⟨by decide, c6_early_drop_releases_each_value_once 1 c6Input (by decide)⟩

/-- Claim C7: an allocation error of a fallible push is returned to
the caller and the queue is left exactly as before the failed push.
For every queue whose head block has not run past its node array (the
invariant of every panic-free reachable state), a failing allocation
makes `try_push_mut`/`try_push` return the error with the state
unchanged, and on an empty head the error return is exact. -/
theorem c7_alloc_error_propagates_and_preserves_state (q : FillQueue Nat) (v : Nat)
    (h : wfQB q = true) :
    (q.block = Head.empty →
      tryPushMut false q v = PushOut.err q ∧ tryPush false q v = PushOut.err q) ∧
    (∀ q', tryPushMut false q v = PushOut.err q' → q' = q) ∧
    (∀ q', tryPush false q v = PushOut.err q' → q' = q) := by
  obtain ⟨b, bs, lost⟩ := q
  cases b with
  | empty =>
      refine ⟨fun _ => ⟨rfl, rfl⟩, ?_, ?_⟩ <;>
        · intro q' h'
          simp only [tryPushMut, tryPush, Bool.false_eq_true, if_false,
            PushOut.err.injEq] at h'
          exact h'.symm
  | locked =>
      refine ⟨fun hx => by simp at hx, ?_, ?_⟩ <;>
        · intro q' h'
          simp [tryPushMut, tryPush] at h'
  | blk binit idx nodes prev =>
      have hle : idx ≤ nodes.length := by simpa [wfQB] using h
      have hngt : ¬ (nodes.length < idx) := Nat.not_lt.mpr hle
      refine ⟨fun hx => by simp at hx, ?_, ?_⟩ <;>
        · intro q' h'
          by_cases hi : idx = nodes.length <;> simp [tryPushMut, tryPush, hngt, hi] at h'

/-- Witness for claim C7 at a fresh queue with a failing allocator. -/
theorem c7_witness :
    wfQB (⟨Head.empty, 8, []⟩ : FillQueue Nat) = true ∧
    (tryPushMut false (⟨Head.empty, 8, []⟩ : FillQueue Nat) 5
        = PushOut.err ⟨Head.empty, 8, []⟩ ∧
     tryPush false (⟨Head.empty, 8, []⟩ : FillQueue Nat) 5
        = PushOut.err ⟨Head.empty, 8, []⟩) :=
  ⟨by decide,
   (c7_alloc_error_propagates_and_preserves_state ⟨Head.empty, 8, []⟩ 5 (by decide)).1 rfl⟩

/-- Claim C8: dropping or marking the last `Flag` handle wakes every
`Lock` registered by `Subscribe::wait` exactly once.  Evaluation at
the failing input (one subscriber, thread 7): the registration's
atomic `push` returns `Ok` but leaves the waiter's lock in a block
that was never linked into the queue (head left at the `LOCKED`
sentinel, the lock only in the ghost `lost` field), so the shared
state's destructor finds nothing reachable, panics on the corrupted
head, and unparks nobody — the registered waiter is never woken. -/
theorem c8_registered_waiter_is_never_woken :
    subscribeWait (⟨Head.empty, 8, []⟩ : FillQueue Lock) 7
        = PushOut.ok ⟨Head.locked, 8, [⟨7⟩]⟩ ∧
    reachableVals (⟨Head.locked, 8, [⟨7⟩]⟩ : FillQueue Lock) = [] ∧
    flagQueueDrop (⟨Head.locked, 8, [⟨7⟩]⟩ : FillQueue Lock) = TeardownOut.panicked ∧
    (flagQueueDrop (⟨Head.locked, 8, [⟨7⟩]⟩ : FillQueue Lock)).unparks = [] := by
  decide

/-- Claim C9: `notify_all` wakes precisely the listeners registered
strictly before the call.  Evaluation at the failing input (one
listener, thread 9, registered before the round): the registration's
atomic `push` leaves the waiter's lock in an unlinked block, so
`notify_all`'s chop panics on the `LOCKED` head and wakes nobody,
instead of waking the previously registered listener. -/
theorem c9_notify_all_wakes_no_prior_listener :
    listenerRegister (⟨Head.empty, 8, []⟩ : FillQueue Lock) 9
        = PushOut.ok ⟨Head.locked, 8, [⟨9⟩]⟩ ∧
    notifyAllOut (⟨Head.locked, 8, [⟨9⟩]⟩ : FillQueue Lock) = TeardownOut.panicked ∧
    (notifyAllOut (⟨Head.locked, 8, [⟨9⟩]⟩ : FillQueue Lock)).unparks = [] := by
  decide

/-- Counterexample to claim C10 as stated: with one waiter registered
(thread 3) and the `Flag` holding the last strong handle,
`silent_drop` does not destroy the waiter queue — the teardown panics
on the `LOCKED` head the registration left behind (it still wakes
nobody, but the claimed clean destruction does not happen). -/
theorem c10_counterexample_teardown_panics_with_registered_waiter :
    subscribeWait (⟨Head.empty, 8, []⟩ : FillQueue Lock) 3
        = PushOut.ok ⟨Head.locked, 8, [⟨3⟩]⟩ ∧
    flagSilentDrop 1 (⟨Head.locked, 8, [⟨3⟩]⟩ : FillQueue Lock) = TeardownOut.panicked := by
  decide

/-- Claim C10 as amended: `Flag::silent_drop` and
`Notify::silent_drop` never call wake on any registered `Lock` — for
every queue state and every strong count the teardown unparks no
thread; with other strong handles remaining it merely releases the
reference (a clean no-op), and for the last handle the destruction
completes cleanly whenever no waiter was ever registered (head still
`EMPTY`). -/
theorem c10_silent_drop_never_wakes (strong : Nat) (q : FillQueue Lock) :
    (flagSilentDrop strong q).unparks = [] ∧
    (notifySilentDrop strong q).unparks = [] ∧
    (strong ≠ 1 → flagSilentDrop strong q = TeardownOut.clean [] ∧
      notifySilentDrop strong q = TeardownOut.clean []) ∧
    (q.block = Head.empty → flagSilentDrop 1 q = TeardownOut.clean [] ∧
      notifySilentDrop 1 q = TeardownOut.clean []) := by
  refine ⟨?_, ?_, ?_, ?_⟩
  · by_cases hs : strong = 1
    · simp only [flagSilentDrop, if_pos hs]
      obtain ⟨b, bs, lost⟩ := q
      cases b <;>
        simp [flagQueueSilentDrop, chopMut, TeardownOut.unparks, flatMap_silentUnparks]
    · simp [flagSilentDrop, hs, TeardownOut.unparks]
  · by_cases hs : strong = 1
    · simp only [notifySilentDrop, if_pos hs]
      obtain ⟨b, bs, lost⟩ := q
      cases b <;>
        simp [chopMut, queueDropUnparks, TeardownOut.unparks, flatMap_silentUnparks,
          ChopIter.drain, drainFrom]
    · simp [notifySilentDrop, hs, TeardownOut.unparks]
  · intro hne
    simp [flagSilentDrop, notifySilentDrop, hne]
  · intro hx
    obtain ⟨b, bs, lost⟩ := q
    change b = Head.empty at hx
    subst hx
    exact ⟨rfl, rfl⟩

/-- Witness for the amended claim C10, applied once with a remaining
strong handle and once for the last handle on a never-registered
queue. -/
theorem c10_witness :
    flagSilentDrop 2 (⟨Head.empty, 8, []⟩ : FillQueue Lock) = TeardownOut.clean [] ∧
    notifySilentDrop 1 (⟨Head.empty, 8, []⟩ : FillQueue Lock) = TeardownOut.clean [] :=
  ⟨((c10_silent_drop_never_wakes 2 ⟨Head.empty, 8, []⟩).2.2.1 (by decide)).1,
   ((c10_silent_drop_never_wakes 1 ⟨Head.empty, 8, []⟩).2.2.2 rfl).2⟩

end FillQ
